import Mathlib

/-!
Verification of the xml2csv extractors (xml2csv.py) against the
natural-language specification.

The XML tree handed to the converters by BeautifulSoup is modelled by
`Node`; the BeautifulSoup operations used by the code (`find`, `find_all`,
`find_all(..., recursive=False)`, `find_all(text=...)`, `getText`, `get`)
are modelled on top of a pre-order `descendants` list.  Each `converter`
method of xml2csv.py is translated line by line; converters that can raise
an uncaught Python exception (AttributeError on `None`) are modelled in
`Except String`.
-/

/-- A parsed XML tree node: an element with a tag name, attributes and
children, or a text node (BeautifulSoup `NavigableString`). -/
inductive Node where
  | elem (name : String) (attrs : List (String × String)) (children : List Node)
  | text (s : String)

mutual

/-- All descendants of a node in document (pre-)order, the node itself
excluded — the order in which BeautifulSoup `find` / `find_all` visit. -/
def Node.descendants : Node → List Node
  | .text _ => []
  | .elem _ _ cs => descList cs

def descList : List Node → List Node
  | [] => []
  | c :: cs => c :: c.descendants ++ descList cs

end

mutual

/-- BeautifulSoup `getText()`: concatenation of all text beneath a node. -/
def Node.getText : Node → String
  | .text s => s
  | .elem _ _ cs => getTextList cs

def getTextList : List Node → String
  | [] => ""
  | c :: cs => c.getText ++ getTextList cs

end

mutual

def Node.size : Node → Nat
  | .text _ => 1
  | .elem _ _ cs => 1 + sizeList cs

def sizeList : List Node → Nat
  | [] => 0
  | c :: cs => c.size + sizeList cs

end

/-- Does this node match tag name `t` (text nodes match no name)? -/
def Node.nameIs (t : String) : Node → Bool
  | .elem n _ _ => n == t
  | .text _ => false

/-- BeautifulSoup `tag.find_all(t)`: every descendant element named `t`,
in document order. -/
def Node.findAllTag (n : Node) (t : String) : List Node :=
  n.descendants.filter (Node.nameIs t)

/-- BeautifulSoup `tag.find(t)`: the first descendant element named `t`. -/
def Node.findTag (n : Node) (t : String) : Option Node :=
  n.descendants.find? (Node.nameIs t)

/-- BeautifulSoup `tag.find(t, a=v)`: the first descendant element named
`t` whose attribute `a` equals `v`. -/
def Node.findTagAttr (n : Node) (t a v : String) : Option Node :=
  n.descendants.find? (fun c =>
    c.nameIs t && match c with
      | .elem _ attrs _ => attrs.lookup a == some v
      | .text _ => false)

/-- BeautifulSoup `tag.find_all(t, recursive=False)`: direct children only. -/
def Node.childrenTag (n : Node) (t : String) : List Node :=
  match n with
  | .elem _ _ cs => cs.filter (Node.nameIs t)
  | .text _ => []

/-- BeautifulSoup `tag.get(a)`: attribute lookup, `None` when absent. -/
def Node.get (n : Node) (a : String) : Option String :=
  match n with
  | .elem _ attrs _ => attrs.lookup a
  | .text _ => none

/-- The strings of all text nodes beneath a node, in document order
(BeautifulSoup `find_all(text=...)` traverses these). -/
def Node.allStrings (n : Node) : List String :=
  n.descendants.filterMap (fun c => match c with
    | .text s => some s
    | .elem _ _ _ => none)

/-- Python `needle in hay` on strings: substring containment. -/
def strContains (hay needle : String) : Bool :=
  hay.data.tails.any (fun t => needle.data.isPrefixOf t)

/-- Python `s.replace('\n', ' ')`. -/
def pyReplaceNl (s : String) : String :=
  ⟨s.data.map (fun c => if c = '\n' then ' ' else c)⟩

/-- Python `s.strip()`: whitespace removed from both ends. -/
def pyTrim (s : String) : String :=
  ⟨((s.data.dropWhile Char.isWhitespace).reverse.dropWhile
      Char.isWhitespace).reverse⟩

/-- Python `s.upper()`. -/
def pyUpper (s : String) : String :=
  ⟨s.data.map Char.toUpper⟩

@[simp] theorem descendants_text (s : String) :
    (Node.text s).descendants = [] := rfl

@[simp] theorem descendants_elem (nm : String) (a : List (String × String))
    (cs : List Node) : (Node.elem nm a cs).descendants = descList cs := rfl

@[simp] theorem descList_nil : descList [] = [] := rfl

@[simp] theorem descList_cons (c : Node) (cs : List Node) :
    descList (c :: cs) = c :: (c.descendants ++ descList cs) := rfl

@[simp] theorem getText_text (s : String) : (Node.text s).getText = s := rfl

@[simp] theorem getText_elem (nm : String) (a : List (String × String))
    (cs : List Node) : (Node.elem nm a cs).getText = getTextList cs := rfl

@[simp] theorem getTextList_nil : getTextList [] = "" := rfl

@[simp] theorem getTextList_cons (c : Node) (cs : List Node) :
    getTextList (c :: cs) = c.getText ++ getTextList cs := rfl

@[simp] theorem size_text (s : String) : (Node.text s).size = 1 := rfl

@[simp] theorem size_elem (nm : String) (a : List (String × String))
    (cs : List Node) : (Node.elem nm a cs).size = 1 + sizeList cs := rfl

@[simp] theorem sizeList_nil : sizeList [] = 0 := rfl

@[simp] theorem sizeList_cons (c : Node) (cs : List Node) :
    sizeList (c :: cs) = c.size + sizeList cs := rfl

theorem descList_append (l₁ l₂ : List Node) :
    descList (l₁ ++ l₂) = descList l₁ ++ descList l₂ := by
  induction l₁ with
  | nil => rfl
  | cons c cs ih => simp [descList, ih]

theorem sizeList_append (l₁ l₂ : List Node) :
    sizeList (l₁ ++ l₂) = sizeList l₁ + sizeList l₂ := by
  induction l₁ with
  | nil => simp
  | cons c cs ih => simp [ih, Nat.add_assoc]

theorem size_pos : ∀ n : Node, 0 < n.size := by
  intro n
  cases n with
  | text s => simp
  | elem nm a cs => simp

mutual

theorem size_lt_of_mem_descendants :
    ∀ (n x : Node), x ∈ n.descendants → x.size < n.size := by
  intro n x h
  cases n with
  | text s => simp at h
  | elem nm a cs =>
    have h' := size_le_of_mem_descList cs x (by simpa using h)
    simp only [size_elem]
    omega

theorem size_le_of_mem_descList :
    ∀ (l : List Node) (x : Node), x ∈ descList l → x.size ≤ sizeList l := by
  intro l x h
  match l with
  | [] => simp at h
  | c :: cs =>
    simp only [descList_cons, List.mem_cons, List.mem_append] at h
    rcases h with h | h | h
    · subst h; simp only [sizeList_cons]; omega
    · have := size_lt_of_mem_descendants c x h
      simp only [sizeList_cons]; omega
    · have := size_le_of_mem_descList cs x h
      simp only [sizeList_cons]; omega

end

theorem size_lt_of_findTag {n g : Node} {t : String}
    (h : n.findTag t = some g) : g.size < n.size := by
  have hm : g ∈ n.descendants := List.mem_of_find?_eq_some h
  exact size_lt_of_mem_descendants n g hm

theorem mem_descendants_of_findTag {n g : Node} {t : String}
    (h : n.findTag t = some g) : g ∈ n.descendants := by
  exact List.mem_of_find?_eq_some h

theorem nameIs_of_findTag {n g : Node} {t : String}
    (h : n.findTag t = some g) : g.nameIs t = true := by
  exact List.find?_some h

mutual

/-- Descendants are transitive: descendants of a descendant are descendants. -/
theorem descendants_trans :
    ∀ (n x y : Node), x ∈ n.descendants → y ∈ x.descendants →
      y ∈ n.descendants := by
  intro n x y hx hy
  cases n with
  | text s => simp at hx
  | elem nm a cs =>
    simp only [descendants_elem] at hx ⊢
    exact descList_trans cs x y hx hy

theorem descList_trans :
    ∀ (l : List Node) (x y : Node), x ∈ descList l →
      y ∈ x.descendants → y ∈ descList l := by
  intro l x y hx hy
  match l with
  | [] => simp at hx
  | c :: cs =>
    simp only [descList_cons, List.mem_cons, List.mem_append] at hx ⊢
    rcases hx with h | h | h
    · subst h; right; left; exact hy
    · right; left; exact descendants_trans c x y h hy
    · right; right; exact descList_trans cs x y h hy

end

/-- A CSV cell: a string value, an integer count, or Python `None`
(absent).  Missing data is this explicit `nil`, never an omitted key. -/
inductive Cell where
  | s (v : String)
  | n (v : Nat)
  | nil
deriving Repr, DecidableEq

/-- A Row: the field-name/value pairs of one Python dict literal, in the
order the literal writes them. -/
abbrev Row := List (String × Cell)

def cellOfOpt : Option String → Cell
  | some v => Cell.s v
  | none => Cell.nil

/-- Run `f` left to right, stopping at the first error — a Python `for`
loop whose body may raise an exception. -/
def mapE (f : α → Except ε β) : List α → Except ε (List β)
  | [] => .ok []
  | a :: as =>
    match f a with
    | .error e => .error e
    | .ok b =>
      match mapE f as with
      | .error e => .error e
      | .ok bs => .ok (b :: bs)

def isOkE : Except ε α → Bool
  | .ok _ => true
  | .error _ => false

/-- A loop body appending a list of rows per iteration. -/
def collectE (f : α → Except ε (List β)) (l : List α) : Except ε (List β) :=
  match mapE f l with
  | .error e => .error e
  | .ok bss => .ok bss.flatten

/-- A loop body appending at most one row per iteration. -/
def collectOptE (f : α → Except ε (Option β)) (l : List α) : Except ε (List β) :=
  match mapE f l with
  | .error e => .error e
  | .ok obs => .ok obs.reduceOption

/-!  The seven converters of xml2csv.py, translated line by line.  -/

/-- The container list of `IcsProcessor` (four names, no `std-doc-meta`). -/
def icsContainers : List String := ["iso-meta", "nat-meta", "reg-meta", "std-meta"]

def icsRow (jobId : Option String) (i : Node) : Row :=
  [("id", cellOfOpt jobId), ("ics", Cell.s i.getText)]

/-- Model of `IcsProcessor.converter`: loops over ALL four container names (no
`break`); for each name whose first occurrence exists, appends one Row per
`ics` element beneath it (`i` is a Tag, hence truthy, so the
`if ics is not None` guard always passes). -/
def icsConverter (jobId : Option String) (soup : Node) : List Row :=
  icsContainers.foldl (fun data c =>
    match soup.findTag c with
    | some meta => data ++ (meta.findAllTag "ics").map (icsRow jobId)
    | none => data) []

/-- The container list of `CommRefProcessor` (five names). -/
def commRefContainers : List String :=
  ["iso-meta", "nat-meta", "reg-meta", "std-meta", "std-doc-meta"]

def commRefRow (jobId : Option String) (level : Cell) (committee : String) : Row :=
  [("id", cellOfOpt jobId), ("level", level), ("committee", Cell.s committee)]

/-- Model of `CommRefProcessor.parse_groups`: descends the first found
`comm-ref-group`
recursively; the direct (`recursive=False`) `comm-ref` children of each
group get the current level; deeper levels are prepended. -/
def parseGroups (jobId : Option String) (tree : Node) (level : Nat) : List Row :=
  match h : tree.findTag "comm-ref-group" with
  | none => []
  | some g =>
    parseGroups jobId g (level + 1) ++
      (g.childrenTag "comm-ref").map (fun i => commRefRow jobId (Cell.n level) i.getText)
termination_by tree.size
decreasing_by exact size_lt_of_findTag h

/-- The body of `CommRefProcessor.converter` for one found container. -/
def commRefMeta (jobId : Option String) (meta : Node) : List Row :=
  match meta.findTag "comm-ref-group" with
  | some _ => parseGroups jobId meta 1
  | none => (meta.findAllTag "comm-ref").map
      (fun i => commRefRow jobId Cell.nil i.getText)

/-- Model of `CommRefProcessor.converter`: loops over ALL five container names. -/
def commRefConverter (jobId : Option String) (soup : Node) : List Row :=
  commRefContainers.foldl (fun data c =>
    match soup.findTag c with
    | some meta => data ++ commRefMeta jobId meta
    | none => data) []

/-- The language-set body of `TbxProcessor.converter`.  Python takes
only the FIRST term-information-group of the language-set (the code uses
find, not find_all) — and the text access raises AttributeError when the
group has no `tbx:term`. -/
def tbxLangsetRow (jobId : Option String) (tdsId label : Option String)
    (j : Node) : Except String (Option Row) :=
  let lang := j.get "xml:lang"
  let definition0 := j.findTag "tbx:definition"
  let source := match definition0 with
    | some d => (d.findTag "std-ref").map Node.getText
    | none => none
  let definition := definition0.map (fun d => pyTrim (pyReplaceNl d.getText))
  let note := (j.findTag "tbx:note").map Node.getText
  match j.findTag "tbx:tig" with
  | none => .ok none
  | some tig =>
    let termId := tig.get "id"
    match tig.findTag "tbx:term" with
    | none => .error "AttributeError"
    | some t =>
      let term := pyTrim (pyReplaceNl t.getText)
      let pos := (tig.findTag "tbx:partofspeech").bind (fun p => p.get "value")
      let normAuth := (tig.findTag "tbx:normativeauthorization").bind
        (fun p => p.get "value")
      .ok (some [("id", cellOfOpt jobId), ("tds_id", cellOfOpt tdsId),
        ("label", cellOfOpt label), ("note", cellOfOpt note),
        ("lang", cellOfOpt lang), ("definition", cellOfOpt definition),
        ("source", cellOfOpt source), ("term_id", cellOfOpt termId),
        ("term", Cell.s term), ("pos", cellOfOpt pos),
        ("norm_auth", cellOfOpt normAuth)])

/-- One `term-sec` of `TbxProcessor.converter` (hasattr on a Tag is always
true, so the id attribute lookup runs unconditionally). -/
def tbxTermSecRows (jobId : Option String) (i : Node) : Except String (List Row) :=
  let tdsId := i.get "id"
  let label := (i.findTag "label").map Node.getText
  collectOptE (tbxLangsetRow jobId tdsId label) (i.findAllTag "tbx:langset")

/-- Model of `TbxProcessor.converter`. -/
def tbxConverter (jobId : Option String) (soup : Node) : Except String (List Row) :=
  collectE (tbxTermSecRows jobId) (soup.findAllTag "term-sec")

def refListRow (jobId : Option String) (ct st si srt : Option String)
    (sr : String) (count : Nat) : Row :=
  [("id", cellOfOpt jobId), ("content_type", cellOfOpt ct),
   ("std_type", cellOfOpt st), ("std_id", cellOfOpt si),
   ("std_ref_type", cellOfOpt srt), ("std_ref", Cell.s sr),
   ("count", Cell.n count)]

/-- The count used by the ReferenceList code: the number of
text nodes of the whole document that contain `sr` as a substring. -/
def occCount (soup : Node) (sr : String) : Nat :=
  (soup.allStrings.filter (fun t => !t.data.isEmpty && strContains t sr)).length

/-- One iteration of the `ref` loop of `RefListProcessor.converter`,
threading the `refs` seen-set and the accumulated rows.  On first
encounter the trimmed text is added to the seen-set REGARDLESS of length;
a row is emitted only when its length exceeds 2. -/
def refStep (jobId : Option String) (soup : Node)
    (acc : List String × List Row) (j : Node) : List String × List Row :=
  let content_type := j.get "content-type"
  match j.findTag "std" with
  | none => acc
  | some std =>
    let std_type := std.get "type"
    let std_id := std.get "std-id"
    match std.findTag "std-ref" with
    | none => acc
    | some sr0 =>
      let std_ref_type := sr0.get "type"
      let std_ref := pyTrim sr0.getText
      if acc.1.contains std_ref then acc
      else if std_ref.length > 2 then
        (acc.1 ++ [std_ref],
         acc.2 ++ [refListRow jobId content_type std_type std_id std_ref_type
           std_ref (occCount soup std_ref)])
      else (acc.1 ++ [std_ref], acc.2)

/-- Model of `RefListProcessor.converter`. -/
def refListConverter (jobId : Option String) (soup : Node) : List Row :=
  (((soup.findAllTag "ref-list").flatMap (fun i => i.findAllTag "ref")).foldl
    (refStep jobId soup) ([], [])).2

/-- Model of `StdRefProcessor.converter`: when no `std-ident` element is
found, the subsequent attribute access on `None` raises AttributeError —
the whole extraction fails with no Row. -/
def stdRefConverter (jobId : Option String) (soup : Node) : Except String (List Row) :=
  let content_language := (soup.findTag "content-language").map Node.getText
  let ref_dated := (soup.findTagAttr "std-ref" "type" "dated").map
    (fun x => pyUpper x.getText)
  let ref_undated := (soup.findTagAttr "std-ref" "type" "undated").map
    (fun x => pyUpper x.getText)
  let doc_ref := (soup.findTag "doc-ref").map Node.getText
  let pub_date := (soup.findTag "pub-date").map Node.getText
  let rel_date := (soup.findTag "release-date").map Node.getText
  let secretariat := (soup.findTag "secretariat").map Node.getText
  match soup.findTag "std-ident" with
  | none => .error "AttributeError"
  | some sib =>
    let originator := (sib.findTag "originator").map Node.getText
    let doc_type := (sib.findTag "doc-type").map Node.getText
    let doc_nr := (sib.findTag "doc-number").map Node.getText
    let part_nr := (sib.findTag "part-number").map Node.getText
    let edition := (sib.findTag "edition").map Node.getText
    let version := (sib.findTag "version").map Node.getText
    let year := (sib.findTag "year").map Node.getText
    let dib := soup.findTag "doc-ident"
    let sdo := dib.bind (fun d => (d.findTag "sdo").map Node.getText)
    let proj_id := dib.bind (fun d => (d.findTag "proj-id").map Node.getText)
    let doc_lang := dib.bind (fun d => (d.findTag "language").map Node.getText)
    let rel_version := dib.bind (fun d => (d.findTag "release-version").map Node.getText)
    let urn := dib.bind (fun d => (d.findTag "urn").map Node.getText)
    .ok [[("id", cellOfOpt jobId), ("ref_dated", cellOfOpt ref_dated),
      ("ref_undated", cellOfOpt ref_undated), ("doc_ref", cellOfOpt doc_ref),
      ("rel_date", cellOfOpt rel_date), ("secretariat", cellOfOpt secretariat),
      ("sdo", cellOfOpt sdo), ("proj_id", cellOfOpt proj_id),
      ("doc_lang", cellOfOpt doc_lang), ("rel_version", cellOfOpt rel_version),
      ("urn", cellOfOpt urn), ("originator", cellOfOpt originator),
      ("doc_type", cellOfOpt doc_type), ("doc_nr", cellOfOpt doc_nr),
      ("part_nr", cellOfOpt part_nr), ("edition", cellOfOpt edition),
      ("version", cellOfOpt version), ("year", cellOfOpt year),
      ("pub_date", cellOfOpt pub_date),
      ("content_language", cellOfOpt content_language)]]

def dateRow (jobId : Option String) (t v : Cell) : Row :=
  [("id", cellOfOpt jobId), ("date_type", t), ("date_val", v)]

/-- One `meta-date` element of `DateProcessor.converter`.  In Python,
hasattr on a Tag is always true (bs4 getattr falls back to child-element
lookup and never raises), so the upper() call on the looked-up attribute
runs unconditionally and raises AttributeError when the `type` ATTRIBUTE
is missing. -/
def metaDateRow (jobId : Option String) (i : Node) : Except String Row :=
  match i.get "type" with
  | none => .error "AttributeError"
  | some t => .ok (dateRow jobId (Cell.s (pyUpper t)) (Cell.s i.getText))

/-- Model of `DateProcessor.converter`: two fixed rows, then one per `meta-date`. -/
def dateConverter (jobId : Option String) (soup : Node) : Except String (List Row) :=
  let pub := (soup.findTag "pub-date").map Node.getText
  let rel := (soup.findTag "release-date").map Node.getText
  match mapE (metaDateRow jobId) (soup.findAllTag "meta-date") with
  | .error e => .error e
  | .ok rest =>
    .ok ([dateRow jobId (Cell.s "publication") (cellOfOpt pub),
          dateRow jobId (Cell.s "release") (cellOfOpt rel)] ++ rest)

/-- One `title-wrap` of `TitleProcessor.converter`:
the text access raises AttributeError when there is no `main`
child anywhere beneath the wrap. -/
def titleRow (jobId : Option String) (i : Node) : Except String Row :=
  let lang := i.get "xml:lang"
  let intro := (i.findTag "intro").map Node.getText
  match i.findTag "main" with
  | none => .error "AttributeError"
  | some m =>
    let compl := (i.findTag "compl").map Node.getText
    let full := (i.findTag "full").map Node.getText
    .ok [("id", cellOfOpt jobId), ("lang", cellOfOpt lang),
      ("intro", cellOfOpt intro), ("main", Cell.s m.getText),
      ("compl", cellOfOpt compl), ("full", cellOfOpt full)]

/-- Model of `TitleProcessor.converter`. -/
def titleConverter (jobId : Option String) (soup : Node) : Except String (List Row) :=
  mapE (titleRow jobId) (soup.findAllTag "title-wrap")

/-- The seven extractor variants wired into the pipeline (main.py). -/
inductive ExtractorKind where
  | classification
  | committeeReference
  | terminology
  | referenceList
  | standardMetadata
  | dateExtraction
  | title
deriving DecidableEq, Repr

/-- A Document: the parsed tree plus its job identifier. -/
structure Document where
  tree : Node
  jobId : Option String

/-- The `fieldnames` class attribute of each processor. -/
def fieldnames : ExtractorKind → List String
  | .classification => ["id", "ics"]
  | .committeeReference => ["id", "level", "committee"]
  | .terminology => ["id", "tds_id", "label", "note", "lang", "definition",
      "source", "term_id", "term", "pos", "norm_auth"]
  | .referenceList => ["id", "content_type", "std_type", "std_id",
      "std_ref_type", "std_ref", "count"]
  | .standardMetadata => ["id", "ref_dated", "ref_undated", "doc_ref",
      "rel_date", "secretariat", "sdo", "proj_id", "doc_lang", "rel_version",
      "urn", "originator", "doc_type", "doc_nr", "part_nr", "edition",
      "version", "year", "pub_date", "content_language"]
  | .dateExtraction => ["id", "date_type", "date_val"]
  | .title => ["id", "lang", "intro", "main", "compl", "full"]

/-- One extraction pass: the converter of the given variant over a
Document.  Converters that cannot raise always return `.ok`. -/
def extract (k : ExtractorKind) (d : Document) : Except String (List Row) :=
  match k with
  | .classification => .ok (icsConverter d.jobId d.tree)
  | .committeeReference => .ok (commRefConverter d.jobId d.tree)
  | .terminology => tbxConverter d.jobId d.tree
  | .referenceList => .ok (refListConverter d.jobId d.tree)
  | .standardMetadata => stdRefConverter d.jobId d.tree
  | .dateExtraction => dateConverter d.jobId d.tree
  | .title => titleConverter d.jobId d.tree

/-- The persistent attributes of a `Processor` instance.  The converters
read `self.job_id` and nothing else of `self`, and assign no attribute, so
the job identifier is the whole cross-invocation state. -/
structure ProcState where
  jobId : Option String

/-- One `process()`-style invocation: returns the (unchanged) instance
state together with the extraction result. -/
def runExtractor (k : ExtractorKind) (s : ProcState) (tree : Node) :
    ProcState × Except String (List Row) :=
  (s, extract k ⟨tree, s.jobId⟩)

/-!  Generic lemmas about the loop combinators.  -/

theorem mapE_nil {f : α → Except ε β} : mapE f [] = .ok [] := rfl

theorem mapE_cons {f : α → Except ε β} (a : α) (as : List α) :
    mapE f (a :: as) =
      match f a with
      | .error e => .error e
      | .ok b =>
        match mapE f as with
        | .error e => .error e
        | .ok bs => .ok (b :: bs) := rfl

theorem mapE_forall₂ {f : α → Except ε β} :
    ∀ {l : List α} {bs : List β}, mapE f l = .ok bs →
      List.Forall₂ (fun a b => f a = .ok b) l bs := by
  intro l
  induction l with
  | nil =>
    intro bs h
    rw [mapE_nil] at h
    injection h with h
    subst h
    exact List.Forall₂.nil
  | cons a as ih =>
    intro bs h
    rw [mapE_cons] at h
    cases hfa : f a with
    | error e => rw [hfa] at h; simp at h
    | ok b =>
      rw [hfa] at h
      cases hrest : mapE f as with
      | error e => rw [hrest] at h; simp at h
      | ok bs0 =>
        rw [hrest] at h
        simp only at h
        injection h with h
        subst h
        exact List.Forall₂.cons hfa (ih hrest)

theorem forall₂_mem_right {P : α → β → Prop} :
    ∀ {l : List α} {bs : List β}, List.Forall₂ P l bs →
      ∀ b ∈ bs, ∃ a ∈ l, P a b := by
  intro l bs h
  induction h with
  | nil => intro b hb; simp at hb
  | @cons a b' as bs' hab htail ih =>
    intro b hb
    rcases List.mem_cons.mp hb with rfl | hb
    · exact ⟨a, List.mem_cons_self a as, hab⟩
    · rcases ih b hb with ⟨a0, ha0, hP⟩
      exact ⟨a0, List.mem_cons_of_mem a ha0, hP⟩

theorem mapE_ok_of_all {f : α → Except ε β} :
    ∀ {l : List α}, (∀ a ∈ l, ∃ b, f a = .ok b) →
      ∃ bs, mapE f l = .ok bs := by
  intro l
  induction l with
  | nil => intro _; exact ⟨[], rfl⟩
  | cons a as ih =>
    intro h
    rcases h a (List.mem_cons_self a as) with ⟨b, hb⟩
    rcases ih (fun x hx => h x (List.mem_cons_of_mem a hx)) with ⟨bs, hbs⟩
    exact ⟨b :: bs, by rw [mapE_cons, hb, hbs]⟩

theorem mapE_error_of_mem {f : α → Except ε β} :
    ∀ {l : List α} {a : α} {e : ε}, a ∈ l → f a = .error e →
      ∃ e2, mapE f l = .error e2 := by
  intro l
  induction l with
  | nil => intro a e h; simp at h
  | cons x xs ih =>
    intro a e hmem hfa
    rcases List.mem_cons.mp hmem with rfl | hmem
    · exact ⟨e, by rw [mapE_cons, hfa]⟩
    · cases hfx : f x with
      | error e2 => exact ⟨e2, by rw [mapE_cons, hfx]⟩
      | ok b =>
        rcases ih hmem hfa with ⟨e2, h2⟩
        exact ⟨e2, by rw [mapE_cons, hfx, h2]⟩

theorem collectE_nil {f : α → Except ε (List β)} : collectE f [] = .ok [] := rfl

theorem collectE_cons {f : α → Except ε (List β)} (a : α) (as : List α) :
    collectE f (a :: as) =
      match f a with
      | .error e => .error e
      | .ok bs =>
        match collectE f as with
        | .error e => .error e
        | .ok rest => .ok (bs ++ rest) := by
  unfold collectE
  rw [mapE_cons]
  cases f a with
  | error e => rfl
  | ok b =>
    cases hr : mapE f as with
    | error e => rfl
    | ok bss => simp

theorem collectOptE_nil {f : α → Except ε (Option β)} :
    collectOptE f [] = .ok [] := rfl

theorem collectOptE_cons {f : α → Except ε (Option β)} (a : α) (as : List α) :
    collectOptE f (a :: as) =
      match f a with
      | .error e => .error e
      | .ok ob =>
        match collectOptE f as with
        | .error e => .error e
        | .ok rest => .ok (ob.toList ++ rest) := by
  unfold collectOptE
  rw [mapE_cons]
  cases ob0 : f a with
  | error e => rfl
  | ok ob =>
    cases hr : mapE f as with
    | error e => rfl
    | ok obs => cases ob <;> simp [List.reduceOption_cons_of_some]

theorem collectOptE_length {f : α → Except ε (Option β)} {p : α → Bool}
    (hp : ∀ a ob, f a = .ok ob → ob.isSome = p a) :
    ∀ {l : List α} {bs : List β}, collectOptE f l = .ok bs →
      bs.length = l.countP p := by
  intro l
  induction l with
  | nil =>
    intro bs h
    rw [collectOptE_nil] at h
    injection h with h
    subst h
    simp
  | cons a as ih =>
    intro bs h
    rw [collectOptE_cons] at h
    cases hfa : f a with
    | error e => rw [hfa] at h; simp at h
    | ok ob =>
      rw [hfa] at h
      cases hrest : collectOptE f as with
      | error e => rw [hrest] at h; simp at h
      | ok rest =>
        rw [hrest] at h
        simp only at h
        injection h with h
        subst h
        have hlen := ih hrest
        have hsome := hp a ob hfa
        rw [List.countP_cons]
        cases ob with
        | none => simp at hsome; simp [hlen, ← hsome]
        | some b => simp at hsome; simp [hlen, ← hsome]

theorem collectE_error_of_mem {f : α → Except ε (List β)} {l : List α}
    {a : α} {e : ε} (hmem : a ∈ l) (hfa : f a = .error e) :
    ∃ e2, collectE f l = .error e2 := by
  rcases mapE_error_of_mem hmem hfa with ⟨e2, h2⟩
  exact ⟨e2, by unfold collectE; rw [h2]⟩

theorem collectE_ok_of_all {f : α → Except ε (List β)} {l : List α}
    (h : ∀ a ∈ l, ∃ bs, f a = .ok bs) : ∃ ys, collectE f l = .ok ys := by
  rcases mapE_ok_of_all h with ⟨bss, hbss⟩
  exact ⟨bss.flatten, by unfold collectE; rw [hbss]⟩

theorem collectOptE_error_of_mem {f : α → Except ε (Option β)} {l : List α}
    {a : α} {e : ε} (hmem : a ∈ l) (hfa : f a = .error e) :
    ∃ e2, collectOptE f l = .error e2 := by
  rcases mapE_error_of_mem hmem hfa with ⟨e2, h2⟩
  exact ⟨e2, by unfold collectOptE; rw [h2]⟩

theorem collectOptE_ok_of_all {f : α → Except ε (Option β)} {l : List α}
    (h : ∀ a ∈ l, ∃ ob, f a = .ok ob) : ∃ ys, collectOptE f l = .ok ys := by
  rcases mapE_ok_of_all h with ⟨obs, hobs⟩
  exact ⟨obs.reduceOption, by unfold collectOptE; rw [hobs]⟩

theorem collectE_mem {f : α → Except ε (List β)} :
    ∀ {l : List α} {ys : List β}, collectE f l = .ok ys → ∀ y ∈ ys,
      ∃ a ∈ l, ∃ bs, f a = .ok bs ∧ y ∈ bs := by
  intro l ys h y hy
  unfold collectE at h
  cases hm : mapE f l with
  | error e => rw [hm] at h; simp at h
  | ok bss =>
    rw [hm] at h
    simp only at h
    injection h with h
    subst h
    rcases List.mem_flatten.mp hy with ⟨bs, hbs, hybs⟩
    rcases forall₂_mem_right (mapE_forall₂ hm) bs hbs with ⟨a, ha, hfa⟩
    exact ⟨a, ha, bs, hfa, hybs⟩

theorem collectOptE_mem {f : α → Except ε (Option β)} :
    ∀ {l : List α} {ys : List β}, collectOptE f l = .ok ys → ∀ y ∈ ys,
      ∃ a ∈ l, f a = .ok (some y) := by
  intro l ys h y hy
  unfold collectOptE at h
  cases hm : mapE f l with
  | error e => rw [hm] at h; simp at h
  | ok obs =>
    rw [hm] at h
    simp only at h
    injection h with h
    subst h
    have hmem : some y ∈ obs := List.reduceOption_mem_iff.mp hy
    rcases forall₂_mem_right (mapE_forall₂ hm) (some y) hmem with ⟨a, ha, hfa⟩
    exact ⟨a, ha, hfa⟩

/-!  Characterizations of the container-probing folds.  -/

theorem icsFold (j : Option String) (soup : Node) :
    ∀ (cs : List String) (init : List Row),
      List.foldl (fun data c =>
        match soup.findTag c with
        | some meta => data ++ (meta.findAllTag "ics").map (icsRow j)
        | none => data) init cs
      = init ++ cs.flatMap (fun c =>
          match soup.findTag c with
          | some meta => (meta.findAllTag "ics").map (icsRow j)
          | none => []) := by
  intro cs
  induction cs with
  | nil => intro init; simp
  | cons c cs ih =>
    intro init
    rw [List.foldl_cons]
    cases h : soup.findTag c with
    | none => simp only [h, List.flatMap_cons]; rw [ih]; simp
    | some meta => simp only [h, List.flatMap_cons]; rw [ih]; simp

/-- Rewriting of the Classification converter as one pass over the container list. -/
theorem icsConverter_eq (j : Option String) (soup : Node) :
    icsConverter j soup = icsContainers.flatMap (fun c =>
      match soup.findTag c with
      | some meta => (meta.findAllTag "ics").map (icsRow j)
      | none => []) := by
  unfold icsConverter
  rw [icsFold]
  rfl

theorem commRefFold (j : Option String) (soup : Node) :
    ∀ (cs : List String) (init : List Row),
      List.foldl (fun data c =>
        match soup.findTag c with
        | some meta => data ++ commRefMeta j meta
        | none => data) init cs
      = init ++ cs.flatMap (fun c =>
          match soup.findTag c with
          | some meta => commRefMeta j meta
          | none => []) := by
  intro cs
  induction cs with
  | nil => intro init; simp
  | cons c cs ih =>
    intro init
    rw [List.foldl_cons]
    cases h : soup.findTag c with
    | none => simp only [h, List.flatMap_cons]; rw [ih]; simp
    | some meta => simp only [h, List.flatMap_cons]; rw [ih]; simp

/-- Rewriting of the CommitteeReference converter as one pass over the
container list. -/
theorem commRefConverter_eq (j : Option String) (soup : Node) :
    commRefConverter j soup = commRefContainers.flatMap (fun c =>
      match soup.findTag c with
      | some meta => commRefMeta j meta
      | none => []) := by
  unfold commRefConverter
  rw [commRefFold]
  rfl

/-- The `level` field of a Row, when it holds a number. -/
def rowLevelNat (r : Row) : Option Nat :=
  match r.lookup "level" with
  | some (Cell.n k) => some k
  | _ => none

theorem rowLevelNat_commRefRow (j : Option String) (level : Nat) (s : String) :
    rowLevelNat (commRefRow j (Cell.n level) s) = some level := rfl

theorem filterMap_commRefRow_levels (j : Option String) (level : Nat) :
    ∀ (l : List Node),
      (l.map (fun i => commRefRow j (Cell.n level) i.getText)).filterMap
          rowLevelNat
        = l.map (fun _ => level) := by
  intro l
  induction l with
  | nil => rfl
  | cons a as ih =>
    simp only [List.map_cons, List.filterMap_cons, rowLevelNat_commRefRow, ih]

theorem pairwise_const_ge (level : Nat) :
    ∀ (l : List Node),
      List.Pairwise (fun x y : Nat => y ≤ x) (l.map (fun _ => level)) := by
  intro l
  induction l with
  | nil => simp
  | cons a as ih =>
    simp only [List.map_cons, List.pairwise_cons]
    refine ⟨fun b hb => ?_, ih⟩
    rcases List.mem_map.mp hb with ⟨x, _, rfl⟩
    exact Nat.le_refl level

/-- The levels carried by `parse_groups` output are weakly decreasing
(deepest level first) and never drop below the starting level. -/
theorem parseGroups_levels (j : Option String) :
    ∀ (N : Nat) (m : Node), m.size ≤ N → ∀ (level : Nat),
      List.Pairwise (fun x y : Nat => y ≤ x)
        ((parseGroups j m level).filterMap rowLevelNat) ∧
      ∀ k ∈ (parseGroups j m level).filterMap rowLevelNat, level ≤ k := by
  intro N
  induction N with
  | zero =>
    intro m hm level
    have := size_pos m
    omega
  | succ N ih =>
    intro m hm level
    rw [parseGroups.eq_def]
    cases h : m.findTag "comm-ref-group" with
    | none => simp
    | some g =>
      simp only []
      have hgs : g.size ≤ N := by
        have := size_lt_of_findTag h
        omega
      obtain ⟨ihs, ihb⟩ := ih g hgs (level + 1)
      rw [List.filterMap_append, filterMap_commRefRow_levels]
      constructor
      · rw [List.pairwise_append]
        refine ⟨ihs, pairwise_const_ge level _, fun a ha b hb => ?_⟩
        rcases List.mem_map.mp hb with ⟨x, _, rfl⟩
        have := ihb a ha
        omega
      · intro k hk
        rcases List.mem_append.mp hk with hk | hk
        · have := ihb k hk
          omega
        · rcases List.mem_map.mp hk with ⟨x, _, rfl⟩
          exact Nat.le_refl level

/-- Provenance of `parse_groups` rows: every row comes from a `comm-ref`
that is a DIRECT child of some `comm-ref-group` descendant, and carries a
numeric level at or above the starting level. -/
theorem parseGroups_mem (j : Option String) :
    ∀ (N : Nat) (m : Node), m.size ≤ N → ∀ (level : Nat) (r : Row),
      r ∈ parseGroups j m level →
      ∃ g leaf k, g ∈ m.descendants ∧ g.nameIs "comm-ref-group" = true ∧
        leaf ∈ g.childrenTag "comm-ref" ∧
        r = commRefRow j (Cell.n k) leaf.getText ∧ level ≤ k := by
  intro N
  induction N with
  | zero =>
    intro m hm level
    have := size_pos m
    omega
  | succ N ih =>
    intro m hm level r hr
    rw [parseGroups.eq_def] at hr
    cases h : m.findTag "comm-ref-group" with
    | none => rw [h] at hr; simp at hr
    | some g0 =>
      rw [h] at hr
      simp only [List.mem_append] at hr
      have hgs : g0.size ≤ N := by
        have := size_lt_of_findTag h
        omega
      rcases hr with hr | hr
      · rcases ih g0 hgs (level + 1) r hr with
          ⟨g, leaf, k, hg, hname, hleaf, hrow, hk⟩
        refine ⟨g, leaf, k, ?_, hname, hleaf, hrow, by omega⟩
        exact descendants_trans m g0 g (mem_descendants_of_findTag h) hg
      · rcases List.mem_map.mp hr with ⟨leaf, hleaf, hrow⟩
        exact ⟨g0, leaf, level, mem_descendants_of_findTag h,
          nameIs_of_findTag h, hleaf, hrow.symm, Nat.le_refl level⟩

/-!  Lemmas about the Terminology converter.  -/

/-- A successful language-set step yields a row exactly when the
language-set has a (first) term-information-group. -/
theorem tbxLangsetRow_isSome (jobId tdsId label : Option String) (j : Node)
    (ob : Option Row) (h : tbxLangsetRow jobId tdsId label j = .ok ob) :
    ob.isSome = (j.findTag "tbx:tig").isSome := by
  unfold tbxLangsetRow at h
  cases htig : j.findTag "tbx:tig" with
  | none =>
    simp only [htig] at h
    injection h with h
    subst h
    rfl
  | some tig =>
    simp only [htig] at h
    cases hterm : tig.findTag "tbx:term" with
    | none => simp only [hterm] at h; simp at h
    | some t =>
      simp only [hterm] at h
      injection h with h
      subst h
      rfl

/-- A first term-information-group with no `tbx:term` makes the
language-set step raise. -/
theorem tbxLangsetRow_error (jobId tdsId label : Option String) (j tig : Node)
    (htig : j.findTag "tbx:tig" = some tig)
    (hterm : tig.findTag "tbx:term" = none) :
    tbxLangsetRow jobId tdsId label j = .error "AttributeError" := by
  unfold tbxLangsetRow
  simp only [htig, hterm]

theorem exists_ok_of_isOk {x : Except ε α} (h : isOkE x = true) :
    ∃ b, x = .ok b := by
  cases x with
  | ok b => exact ⟨b, rfl⟩
  | error e => simp [isOkE] at h

/-- When every found first group has a term, the language-set step
cannot raise. -/
theorem tbxLangsetRow_ok (jobId tdsId label : Option String) (j : Node)
    (h : ∀ tig, j.findTag "tbx:tig" = some tig →
      (tig.findTag "tbx:term").isSome = true) :
    ∃ ob, tbxLangsetRow jobId tdsId label j = .ok ob := by
  apply exists_ok_of_isOk
  unfold tbxLangsetRow
  cases htig : j.findTag "tbx:tig" with
  | none => simp only [htig, isOkE]
  | some tig =>
    have hs := h tig htig
    cases hterm : tig.findTag "tbx:term" with
    | none => rw [hterm] at hs; simp at hs
    | some t => simp only [htig, hterm, isOkE]

/-- Shape of an emitted Terminology row. -/
theorem tbxLangsetRow_shape (jobId tdsId label : Option String) (j : Node)
    (r : Row) (h : tbxLangsetRow jobId tdsId label j = .ok (some r)) :
    r.map Prod.fst = fieldnames ExtractorKind.terminology ∧
    r.lookup "id" = some (cellOfOpt jobId) := by
  unfold tbxLangsetRow at h
  cases htig : j.findTag "tbx:tig" with
  | none => simp only [htig] at h; simp at h
  | some tig =>
    simp only [htig] at h
    cases hterm : tig.findTag "tbx:term" with
    | none => simp only [hterm] at h; simp at h
    | some t =>
      simp only [hterm] at h
      injection h with h
      injection h with h
      subst h
      exact ⟨rfl, rfl⟩

theorem tbxTermSecRows_eq (jobId : Option String) (i : Node) :
    tbxTermSecRows jobId i = collectOptE
      (tbxLangsetRow jobId (i.get "id") ((i.findTag "label").map Node.getText))
      (i.findAllTag "tbx:langset") := rfl

/-- Row count of the Terminology converter, sections handled one by one:
one row per language-set possessing a first term-information-group. -/
theorem tbxRows_length (jobId : Option String) :
    ∀ (secs : List Node) (rows : List Row),
      collectE (tbxTermSecRows jobId) secs = .ok rows →
      rows.length = (secs.flatMap (fun i => i.findAllTag "tbx:langset")).countP
        (fun ls => (ls.findTag "tbx:tig").isSome) := by
  intro secs
  induction secs with
  | nil =>
    intro rows h
    rw [collectE_nil] at h
    injection h with h
    subst h
    simp
  | cons s ss ih =>
    intro rows h
    rw [collectE_cons] at h
    cases hs : tbxTermSecRows jobId s with
    | error e => rw [hs] at h; simp at h
    | ok bs =>
      rw [hs] at h
      cases hrest : collectE (tbxTermSecRows jobId) ss with
      | error e => rw [hrest] at h; simp at h
      | ok rest =>
        rw [hrest] at h
        simp only [] at h
        injection h with h
        subst h
        rw [tbxTermSecRows_eq] at hs
        have hbs := collectOptE_length
          (fun a ob hab => tbxLangsetRow_isSome _ _ _ a ob hab) hs
        have hrest2 := ih rest hrest
        simp [List.flatMap_cons, List.countP_append, hbs, hrest2]

/-!  Lemmas about the ReferenceList converter.  -/

theorem refListRow_lookup_stdref (jobId : Option String)
    (ct st si srt : Option String) (sr : String) (count : Nat) :
    (refListRow jobId ct st si srt sr count).lookup "std_ref"
      = some (Cell.s sr) := rfl

/-- Invariant threaded through the `ref` loop: every accumulated row was
built by `refListRow` from a trimmed text of length > 2 that is in the
seen-set, its count is the whole-document occurrence count, and no two
rows share a reference text. -/
def refInv (jobId : Option String) (soup : Node)
    (acc : List String × List Row) : Prop :=
  (∀ r ∈ acc.2, ∃ ct st si srt sr,
    r = refListRow jobId ct st si srt sr (occCount soup sr) ∧
    2 < sr.length ∧ sr ∈ acc.1) ∧
  (acc.2.map (fun r => r.lookup "std_ref")).Nodup

theorem refStep_inv (jobId : Option String) (soup : Node)
    (acc : List String × List Row) (x : Node)
    (h : refInv jobId soup acc) : refInv jobId soup (refStep jobId soup acc x) := by
  unfold refStep
  cases hstd : x.findTag "std" with
  | none => simp only [hstd]; exact h
  | some std =>
    simp only [hstd]
    cases hsr : std.findTag "std-ref" with
    | none => simp only [hsr]; exact h
    | some sr0 =>
      simp only [hsr]
      by_cases hseen : acc.1.contains (pyTrim sr0.getText) = true
      · rw [if_pos hseen]; exact h
      · rw [if_neg hseen]
        by_cases hlen : (pyTrim sr0.getText).length > 2
        · rw [if_pos hlen]
          constructor
          · intro r hr
            rcases List.mem_append.mp hr with hr | hr
            · rcases h.1 r hr with ⟨ct, st, si, srt, sr, hrow, hl, hmem⟩
              exact ⟨ct, st, si, srt, sr, hrow, hl, List.mem_append_left _ hmem⟩
            · rcases List.mem_singleton.mp hr with rfl
              exact ⟨_, _, _, _, _, rfl, hlen,
                List.mem_append_right _ (List.mem_singleton_self _)⟩
          · rw [List.map_append]
            refine List.Nodup.append h.2 (by simp) ?_
            intro v hv hv1
            simp only [List.map_cons, List.map_nil, List.mem_singleton] at hv1
            subst hv1
            rcases List.mem_map.mp hv with ⟨r, hr, hlook⟩
            rcases h.1 r hr with ⟨ct, st, si, srt, sr, hrow, hl, hmem⟩
            rw [hrow, refListRow_lookup_stdref] at hlook
            have hsreq : sr = pyTrim sr0.getText := by
              have := Option.some.inj hlook
              exact Cell.s.inj this
            apply hseen
            rw [← hsreq]
            exact List.elem_iff.mpr hmem
        · rw [if_neg hlen]
          constructor
          · intro r hr
            rcases h.1 r hr with ⟨ct, st, si, srt, sr, hrow, hl, hmem⟩
            exact ⟨ct, st, si, srt, sr, hrow, hl, List.mem_append_left _ hmem⟩
          · exact h.2

theorem refFold_inv (jobId : Option String) (soup : Node) :
    ∀ (l : List Node) (acc : List String × List Row),
      refInv jobId soup acc →
      refInv jobId soup (l.foldl (refStep jobId soup) acc) := by
  intro l
  induction l with
  | nil => intro acc h; exact h
  | cons x xs ih => intro acc h; exact ih _ (refStep_inv jobId soup acc x h)

/-- Global guarantees of `RefListProcessor.converter`: every row was built
from a trimmed reference text of length > 2 with the whole-document
occurrence count, and no two rows carry the same reference text. -/
theorem refListConverter_rows (jobId : Option String) (soup : Node) :
    (∀ r ∈ refListConverter jobId soup, ∃ ct st si srt sr,
      r = refListRow jobId ct st si srt sr (occCount soup sr) ∧
      2 < sr.length) ∧
    ((refListConverter jobId soup).map (fun r => r.lookup "std_ref")).Nodup := by
  have h := refFold_inv jobId soup
    ((soup.findAllTag "ref-list").flatMap (fun i => i.findAllTag "ref"))
    ([], []) ⟨by simp, by simp⟩
  constructor
  · intro r hr
    rcases h.1 r hr with ⟨ct, st, si, srt, sr, hrow, hl, _⟩
    exact ⟨ct, st, si, srt, sr, hrow, hl⟩
  · exact h.2

/-!  Lemmas about the Title, DateExtraction and StandardMetadata
converters.  -/

/-- A `title-wrap` without a `main` descendant raises. -/
theorem titleRow_error (j : Option String) (i : Node)
    (h : i.findTag "main" = none) : titleRow j i = .error "AttributeError" := by
  unfold titleRow
  simp only [h]

/-- Shape of an emitted Title row: full declared field set, and the `main`
field always holds the text of a found `main` element (never absent). -/
theorem titleRow_shape (j : Option String) (i : Node) (r : Row)
    (h : titleRow j i = .ok r) :
    r.map Prod.fst = fieldnames ExtractorKind.title ∧
    r.lookup "id" = some (cellOfOpt j) ∧
    ∃ m, i.findTag "main" = some m ∧
      r.lookup "main" = some (Cell.s m.getText) := by
  unfold titleRow at h
  cases hm : i.findTag "main" with
  | none => simp only [hm] at h; simp at h
  | some m =>
    simp only [hm] at h
    injection h with h
    subst h
    exact ⟨rfl, rfl, m, rfl, rfl⟩

theorem metaDateRow_shape (j : Option String) (i : Node) (r : Row)
    (h : metaDateRow j i = .ok r) :
    r.map Prod.fst = fieldnames ExtractorKind.dateExtraction ∧
    r.lookup "id" = some (cellOfOpt j) := by
  unfold metaDateRow at h
  cases ht : i.get "type" with
  | none => simp only [ht] at h; simp at h
  | some t =>
    simp only [ht] at h
    injection h with h
    subst h
    exact ⟨rfl, rfl⟩

theorem dateConverter_shape (j : Option String) (soup : Node)
    (rows : List Row) (h : dateConverter j soup = .ok rows) :
    ∀ r ∈ rows, r.map Prod.fst = fieldnames ExtractorKind.dateExtraction ∧
      r.lookup "id" = some (cellOfOpt j) := by
  unfold dateConverter at h
  cases hm : mapE (metaDateRow j) (soup.findAllTag "meta-date") with
  | error e => rw [hm] at h; simp at h
  | ok rest =>
    rw [hm] at h
    simp only [] at h
    injection h with h
    subst h
    intro r hr
    rcases List.mem_append.mp hr with hr | hr
    · rcases List.mem_cons.mp hr with rfl | hr
      · exact ⟨rfl, rfl⟩
      · rcases List.mem_singleton.mp hr with rfl
        exact ⟨rfl, rfl⟩
    · rcases forall₂_mem_right (mapE_forall₂ hm) r hr with ⟨i, _, hfi⟩
      exact metaDateRow_shape j i r hfi

/-- A Document without a `std-ident` block makes StandardMetadata raise
before any Row is produced. -/
theorem stdRefConverter_error (j : Option String) (soup : Node)
    (h : soup.findTag "std-ident" = none) :
    stdRefConverter j soup = .error "AttributeError" := by
  unfold stdRefConverter
  simp only [h]

theorem stdRefConverter_shape (j : Option String) (soup : Node)
    (rows : List Row) (h : stdRefConverter j soup = .ok rows) :
    ∀ r ∈ rows, r.map Prod.fst = fieldnames ExtractorKind.standardMetadata ∧
      r.lookup "id" = some (cellOfOpt j) := by
  unfold stdRefConverter at h
  cases hs : soup.findTag "std-ident" with
  | none => simp only [hs] at h; simp at h
  | some sib =>
    simp only [hs] at h
    injection h with h
    subst h
    intro r hr
    rcases List.mem_singleton.mp hr with rfl
    exact ⟨rfl, rfl⟩

/-!  Concrete example documents.  -/

def exTwoTigTig1 : Node :=
  Node.elem "tbx:tig" [("id", "t1")] [
    Node.elem "tbx:term" [] [Node.text "alpha"]]

def exTwoTigLs : Node :=
  Node.elem "tbx:langset" [("xml:lang", "en")] [
    exTwoTigTig1,
    Node.elem "tbx:tig" [("id", "t2")] [
      Node.elem "tbx:term" [] [Node.text "beta"]]]

def exTwoTigSec : Node := Node.elem "term-sec" [("id", "s1")] [exTwoTigLs]

/-- One language-set holding TWO term-information-groups, both with a
term. -/
def exTwoTigDoc : Node := Node.elem "[document]" [] [exTwoTigSec]

/-- The single row the Terminology code emits for `exTwoTigDoc`. -/
def exTwoTigRow : Row :=
  [("id", Cell.s "J"), ("tds_id", Cell.s "s1"), ("label", Cell.nil),
   ("note", Cell.nil), ("lang", Cell.s "en"), ("definition", Cell.nil),
   ("source", Cell.nil), ("term_id", Cell.s "t1"), ("term", Cell.s "alpha"),
   ("pos", Cell.nil), ("norm_auth", Cell.nil)]

def exNoTermTig : Node := Node.elem "tbx:tig" [("id", "t1")] [Node.text "oops"]

def exNoTermLs : Node :=
  Node.elem "tbx:langset" [("xml:lang", "en")] [exNoTermTig]

def exNoTermSec : Node :=
  Node.elem "term-sec" [] [
    exNoTermLs,
    Node.elem "tbx:langset" [("xml:lang", "nl")] [
      Node.elem "tbx:tig" [("id", "t2")] [
        Node.elem "tbx:term" [] [Node.text "beta"]]]]

/-- Document where the first (and only) term-information-group of the
first language-set has no
`tbx:term`; the second language-set is well-formed. -/
def exNoTermDoc : Node := Node.elem "[document]" [] [exNoTermSec]

/-- Both `iso-meta` and `nat-meta` present, one ICS code under each. -/
def exIcsTwoContainersDoc : Node :=
  Node.elem "[document]" [] [
    Node.elem "iso-meta" [] [Node.elem "ics" [] [Node.text "11.040"]],
    Node.elem "nat-meta" [] [Node.elem "ics" [] [Node.text "23.020"]]]

/-- An ICS code only beneath `std-doc-meta` — the fifth container name of
the priority list of the spec, which the Classification code never probes. -/
def exIcsStdDocMetaDoc : Node :=
  Node.elem "[document]" [] [
    Node.elem "std-doc-meta" [] [Node.elem "ics" [] [Node.text "35.240"]]]

/-- Document with "ABC" once as a standard-reference and twice more as
plain text. -/
def exRefDocABC : Node :=
  Node.elem "[document]" [] [
    Node.elem "ref-list" [] [
      Node.elem "ref" [("content-type", "standard")] [
        Node.elem "std" [("type", "dated"), ("std-id", "X1")] [
          Node.elem "std-ref" [("type", "dated")] [Node.text "ABC"]]]],
    Node.elem "p" [] [Node.text "see ABC here"],
    Node.elem "p" [] [Node.text "ABC again"]]

def exRefRowABC : Row :=
  [("id", Cell.s "J"), ("content_type", Cell.s "standard"),
   ("std_type", Cell.s "dated"), ("std_id", Cell.s "X1"),
   ("std_ref_type", Cell.s "dated"), ("std_ref", Cell.s "ABC"),
   ("count", Cell.n 3)]

/-- Document with "AB" (length 2) as a standard-reference twice and as
plain text. -/
def exRefDocAB : Node :=
  Node.elem "[document]" [] [
    Node.elem "ref-list" [] [
      Node.elem "ref" [("content-type", "standard")] [
        Node.elem "std" [("type", "dated"), ("std-id", "X1")] [
          Node.elem "std-ref" [("type", "dated")] [Node.text "AB"]]],
      Node.elem "ref" [("content-type", "standard")] [
        Node.elem "std" [("type", "dated"), ("std-id", "X2")] [
          Node.elem "std-ref" [("type", "dated")] [Node.text "AB"]]]],
    Node.elem "p" [] [Node.text "AB appears here too"]]

/-- Grouping nested three levels deep, one committee leaf per level. -/
def exCommG3 : Node :=
  Node.elem "comm-ref-group" [] [Node.elem "comm-ref" [] [Node.text "WG"]]

def exCommG2 : Node :=
  Node.elem "comm-ref-group" [] [Node.elem "comm-ref" [] [Node.text "SC"],
    exCommG3]

def exCommG1 : Node :=
  Node.elem "comm-ref-group" [] [Node.elem "comm-ref" [] [Node.text "TC"],
    exCommG2]

def exCommMeta : Node := Node.elem "iso-meta" [] [exCommG1]

def exCommDoc : Node := Node.elem "[document]" [] [exCommMeta]

/-- A metadata container with a committee reference but no grouping. -/
def exCommFlatMeta : Node :=
  Node.elem "iso-meta" [] [Node.elem "comm-ref" [] [Node.text "TC9"]]

def exCommFlatDoc : Node := Node.elem "[document]" [] [exCommFlatMeta]

/-- A `meta-date` carrying a `type` attribute; no publication or release
date anywhere. -/
def exDateRevisionDoc : Node :=
  Node.elem "[document]" [] [
    Node.elem "std" [] [
      Node.elem "meta-date" [("type", "revision")] [Node.text "2020"]]]

/-- A `meta-date` WITHOUT a `type` attribute. -/
def exDateNoTypeDoc : Node :=
  Node.elem "[document]" [] [
    Node.elem "std" [] [Node.elem "meta-date" [] [Node.text "2020"]]]

/-- No `std-ident` block anywhere. -/
def exNoStdIdentDoc : Node :=
  Node.elem "[document]" [] [
    Node.elem "front" [] [Node.elem "doc-ref" [] [Node.text "NEN 1"]]]

def exTitleNoMainWrap : Node :=
  Node.elem "title-wrap" [("xml:lang", "en")] [
    Node.elem "intro" [] [Node.text "Only an intro"]]

/-- A `title-wrap` lacking a `main` child. -/
def exTitleNoMainDoc : Node :=
  Node.elem "[document]" [] [exTitleNoMainWrap]

/-- A well-formed `title-wrap`. -/
def exTitleGoodDoc : Node :=
  Node.elem "[document]" [] [
    Node.elem "title-wrap" [("xml:lang", "en")] [
      Node.elem "main" [] [Node.text "Safety of machinery"]]]

/-- Evaluation of the CommitteeReference converter on the three-level
document: deepest level first, levels 3, 2, 1. -/
theorem exCommDoc_eval (j : Option String) :
    commRefConverter j exCommDoc =
      [commRefRow j (Cell.n 3) "WG", commRefRow j (Cell.n 2) "SC",
       commRefRow j (Cell.n 1) "TC"] := by
  have h1 : exCommMeta.findTag "comm-ref-group" = some exCommG1 := rfl
  have h2 : exCommG1.findTag "comm-ref-group" = some exCommG2 := rfl
  have h3 : exCommG2.findTag "comm-ref-group" = some exCommG3 := rfl
  have h4 : exCommG3.findTag "comm-ref-group" = none := rfl
  show parseGroups j exCommMeta 1 = _
  rw [parseGroups.eq_def, h1]
  simp only []
  rw [parseGroups.eq_def, h2]
  simp only []
  rw [parseGroups.eq_def, h3]
  simp only []
  rw [parseGroups.eq_def, h4]
  rfl

/-!  Claim theorems.  -/

/-- The (section, language-set, term-information-group) triples of a
Document, as the spec counts them. -/
def tigTriples (soup : Node) : List Node :=
  (soup.findAllTag "term-sec").flatMap (fun i =>
    (i.findAllTag "tbx:langset").flatMap (fun ls => ls.findAllTag "tbx:tig"))

/-- C1 (counterexample): the claim says one Row per term-information-group
per language-set.  `exTwoTigDoc` has two groups (both with resolvable
terms) in one language-set, yet the code — which calls
find on the tig element, not find_all — emits exactly ONE row, built from
the first group only. -/
theorem C1_counterexample :
    (tigTriples exTwoTigDoc).length = 2 ∧
    tbxConverter (some "J") exTwoTigDoc = .ok [exTwoTigRow] := ⟨rfl, rfl⟩

/-- C1 (amended): on success the Terminology extractor emits exactly one
Row per (section, language-set) pair whose language-set contains at least
one term-information-group — only the FIRST group of each language-set is
read. -/
theorem C1_amended (jobId : Option String) (soup : Node) (rows : List Row)
    (h : tbxConverter jobId soup = .ok rows) :
    rows.length = ((soup.findAllTag "term-sec").flatMap
      (fun i => i.findAllTag "tbx:langset")).countP
      (fun ls => (ls.findTag "tbx:tig").isSome) :=
  tbxRows_length jobId (soup.findAllTag "term-sec") rows h

/-- Witness for C1_amended at `exTwoTigDoc`. -/
theorem C1_witness :
    tbxConverter (some "J") exTwoTigDoc = .ok [exTwoTigRow] ∧
    ([exTwoTigRow] : List Row).length =
      ((exTwoTigDoc.findAllTag "term-sec").flatMap
        (fun i => i.findAllTag "tbx:langset")).countP
        (fun ls => (ls.findTag "tbx:tig").isSome) :=
  ⟨rfl, C1_amended (some "J") exTwoTigDoc [exTwoTigRow] rfl⟩

/-- C2 (counterexample): the claim says five container names are probed
and only the first present one wins.  The Classification code probes only
FOUR names and has no break: with both `iso-meta` and `nat-meta` present
it emits rows from both (two rows, not one), and an ICS code under
`std-doc-meta` — the fifth name — yields nothing. -/
theorem C2_counterexample :
    icsConverter (some "J") exIcsTwoContainersDoc =
      [[("id", Cell.s "J"), ("ics", Cell.s "11.040")],
       [("id", Cell.s "J"), ("ics", Cell.s "23.020")]] ∧
    icsConverter (some "J") exIcsStdDocMetaDoc = [] := ⟨rfl, rfl⟩

/-- C2 (amended): Classification probes the four container names
`iso-meta`, `nat-meta`, `reg-meta`, `std-meta` in order, and EVERY name
that is present contributes one Row per `ics` element beneath its first
occurrence; no container or empty containers give zero rows, never an
error (the converter is total). -/
theorem C2_amended (jobId : Option String) (soup : Node) :
    (icsConverter jobId soup).length =
      (icsContainers.map (fun c =>
        match soup.findTag c with
        | some meta => (meta.findAllTag "ics").length
        | none => 0)).sum := by
  rw [icsConverter_eq]
  induction icsContainers with
  | nil => rfl
  | cons c cs ih =>
    rw [List.flatMap_cons, List.map_cons, List.length_append, List.sum_cons, ih]
    cases h : soup.findTag c with
    | none => simp [h]
    | some meta => simp [h]

/-- C3: ReferenceList.  "ABC" (length 3) as a standard-reference plus two
plain-text occurrences gives exactly one Row with count 3; "AB" (length 2)
gives zero rows even when re-encountered; in general every emitted row
carries a trimmed reference text of length > 2 together with the
whole-document text-node occurrence count of that text, and no two rows of
one Document share a reference text (re-encounters never emit). -/
theorem C3_refList : ∀ (jobId : Option String),
    refListConverter (some "J") exRefDocABC = [exRefRowABC] ∧
    refListConverter (some "J") exRefDocAB = [] ∧
    (∀ (soup : Node) (r : Row), r ∈ refListConverter jobId soup →
      ∃ ct st si srt sr,
        r = refListRow jobId ct st si srt sr (occCount soup sr) ∧
        2 < sr.length) ∧
    (∀ soup : Node,
      ((refListConverter jobId soup).map
        (fun r => r.lookup "std_ref")).Nodup) := by
  intro jobId
  refine ⟨rfl, rfl, ?_, ?_⟩
  · intro soup r hr
    exact (refListConverter_rows jobId soup).1 r hr
  · intro soup
    exact (refListConverter_rows jobId soup).2

/-- Witness for C3_refList: its row-shape part applied to the concrete
"ABC" document and its single row. -/
theorem C3_witness :
    ∃ ct st si srt sr,
      exRefRowABC = refListRow (some "J") ct st si srt sr
        (occCount exRefDocABC sr) ∧ 2 < sr.length :=
  (C3_refList (some "J")).2.2.1 exRefDocABC exRefRowABC
    ((C3_refList (some "J")).1 ▸ List.mem_singleton_self exRefRowABC)

/-- C4: CommitteeReference grouping.  The three-level one-leaf-per-level
document yields levels [3, 2, 1] in that order; in general the numeric
levels of `parse_groups` output are weakly decreasing (deepest first) and
never drop below the starting level 1; and when no probed container has a
grouping element every emitted row carries an absent level. -/
theorem C4_commRef : ∀ (j : Option String),
    commRefConverter j exCommDoc =
      [commRefRow j (Cell.n 3) "WG", commRefRow j (Cell.n 2) "SC",
       commRefRow j (Cell.n 1) "TC"] ∧
    (∀ (m : Node) (level : Nat),
      List.Pairwise (fun x y : Nat => y ≤ x)
        ((parseGroups j m level).filterMap rowLevelNat) ∧
      ∀ k ∈ (parseGroups j m level).filterMap rowLevelNat, level ≤ k) ∧
    (∀ soup : Node,
      (∀ c ∈ commRefContainers, ∀ meta, soup.findTag c = some meta →
        meta.findTag "comm-ref-group" = none) →
      ∀ r ∈ commRefConverter j soup, r.lookup "level" = some Cell.nil) := by
  intro j
  refine ⟨exCommDoc_eval j, ?_, ?_⟩
  · intro m level
    exact parseGroups_levels j m.size m (Nat.le_refl _) level
  · intro soup hno r hr
    rw [commRefConverter_eq] at hr
    rcases List.mem_flatMap.mp hr with ⟨c, hc, hrc⟩
    cases hf : soup.findTag c with
    | none => rw [hf] at hrc; simp at hrc
    | some meta =>
      rw [hf] at hrc
      simp only [] at hrc
      unfold commRefMeta at hrc
      rw [hno c hc meta hf] at hrc
      simp only [] at hrc
      rcases List.mem_map.mp hrc with ⟨i, _, hri⟩
      rw [← hri]
      rfl

/-- Witness for C4_commRef: the ungrouped-container part applied to
`exCommFlatDoc`. -/
theorem C4_witness :
    (commRefRow (some "J") Cell.nil "TC9").lookup "level" = some Cell.nil := by
  have he : commRefConverter (some "J") exCommFlatDoc
      = [commRefRow (some "J") Cell.nil "TC9"] := rfl
  refine (C4_commRef (some "J")).2.2 exCommFlatDoc ?_
    (commRefRow (some "J") Cell.nil "TC9")
    (he ▸ List.mem_singleton_self _)
  intro c hc meta hf
  simp only [commRefContainers, List.mem_cons, List.not_mem_nil, or_false]
    at hc
  rcases hc with rfl | rfl | rfl | rfl | rfl
  · have h2 : some exCommFlatMeta = some meta := hf
    injection h2 with h2
    subst h2
    rfl
  · exact absurd ((rfl : (none : Option Node) = none).symm.trans hf)
      (by simp)
  · exact absurd ((rfl : (none : Option Node) = none).symm.trans hf)
      (by simp)
  · exact absurd ((rfl : (none : Option Node) = none).symm.trans hf)
      (by simp)
  · exact absurd ((rfl : (none : Option Node) = none).symm.trans hf)
      (by simp)

/-- C5: the claim says a `meta-date` with no `type` attribute yields a row
with an absent type.  The good path holds — no publication or release date
plus one `meta-date` of type "revision"/"2020" gives exactly the three
claimed rows — but on a `meta-date` WITHOUT the attribute the code raises
AttributeError (hasattr on a Tag is always true, so upper() runs on
`None`): the extraction fails instead of
emitting an absent type. -/
theorem C5_dateExtraction :
    dateConverter (some "J") exDateRevisionDoc =
      .ok [dateRow (some "J") (Cell.s "publication") Cell.nil,
           dateRow (some "J") (Cell.s "release") Cell.nil,
           dateRow (some "J") (Cell.s "REVISION") (Cell.s "2020")] ∧
    dateConverter (some "J") exDateNoTypeDoc = .error "AttributeError" :=
  ⟨rfl, rfl⟩

/-- C6: required structure.  A Document without a `std-ident` block makes
StandardMetadata fail with no Row at all (the error result carries no
rows); a `title-wrap` without a `main` descendant makes the whole Title
extraction fail with no Row; and whenever Title succeeds, the `main`
field of every row holds the text of a found `main` element — never an absent
value. -/
theorem C6_requiredStructure : ∀ (j : Option String) (soup : Node),
    (soup.findTag "std-ident" = none →
      stdRefConverter j soup = .error "AttributeError") ∧
    (∀ tw ∈ soup.findAllTag "title-wrap", tw.findTag "main" = none →
      ∃ e, titleConverter j soup = .error e) ∧
    (∀ rows, titleConverter j soup = .ok rows → ∀ r ∈ rows,
      ∃ m, r.lookup "main" = some (Cell.s (Node.getText m))) := by
  intro j soup
  refine ⟨fun h => stdRefConverter_error j soup h, ?_, ?_⟩
  · intro tw htw hmain
    exact mapE_error_of_mem htw (titleRow_error j tw hmain)
  · intro rows h r hr
    rcases forall₂_mem_right (mapE_forall₂ h) r hr with ⟨i, _, hfi⟩
    rcases titleRow_shape j i r hfi with ⟨_, _, m, _, hm⟩
    exact ⟨m, hm⟩

/-- Witness for C6_requiredStructure at concrete documents. -/
theorem C6_witness :
    stdRefConverter (some "J") exNoStdIdentDoc = .error "AttributeError" ∧
    (∃ e, titleConverter (some "J") exTitleNoMainDoc = .error e) ∧
    (∃ m, ([("id", Cell.s "J"), ("lang", Cell.s "en"), ("intro", Cell.nil),
        ("main", Cell.s "Safety of machinery"), ("compl", Cell.nil),
        ("full", Cell.nil)] : Row).lookup "main"
      = some (Cell.s (Node.getText m))) := by
  refine ⟨(C6_requiredStructure (some "J") exNoStdIdentDoc).1 rfl, ?_, ?_⟩
  · exact (C6_requiredStructure (some "J") exTitleNoMainDoc).2.1
      exTitleNoMainWrap (List.mem_singleton_self _) rfl
  · exact (C6_requiredStructure (some "J") exTitleGoodDoc).2.2
      [[("id", Cell.s "J"), ("lang", Cell.s "en"), ("intro", Cell.nil),
        ("main", Cell.s "Safety of machinery"), ("compl", Cell.nil),
        ("full", Cell.nil)]] rfl _ (List.mem_singleton_self _)

/-- C7 (counterexample): the claim says a term-information-group lacking a
term element is skipped silently and other groups still emit.  In
`exNoTermDoc` the only group of the first language-set has no `tbx:term`: the
code raises AttributeError and the whole Terminology extraction fails —
the well-formed second language-set emits nothing either. -/
theorem C7_counterexample :
    tbxConverter (some "J") exNoTermDoc = .error "AttributeError" := rfl

/-- C7 (amended): a language-set with NO term-information-group at all is
skipped silently, but a (first) term-information-group lacking a term
element makes the Terminology extraction fail for the Document; when every
first group (if any) of every language-set has a term, extraction
succeeds. -/
theorem C7_amended : ∀ (j : Option String) (soup : Node),
    ((∃ sec ∈ soup.findAllTag "term-sec",
        ∃ ls ∈ sec.findAllTag "tbx:langset",
        ∃ tig, ls.findTag "tbx:tig" = some tig ∧
          tig.findTag "tbx:term" = none) →
      ∃ e, tbxConverter j soup = .error e) ∧
    ((∀ sec ∈ soup.findAllTag "term-sec",
        ∀ ls ∈ sec.findAllTag "tbx:langset",
        ∀ tig, ls.findTag "tbx:tig" = some tig →
          (tig.findTag "tbx:term").isSome = true) →
      ∃ rows, tbxConverter j soup = .ok rows) := by
  intro j soup
  constructor
  · rintro ⟨sec, hsec, ls, hls, tig, htig, hterm⟩
    have hlserr := tbxLangsetRow_error j (sec.get "id")
      ((sec.findTag "label").map Node.getText) ls tig htig hterm
    have hsecerr : ∃ e2, tbxTermSecRows j sec = .error e2 := by
      rw [tbxTermSecRows_eq]
      exact collectOptE_error_of_mem hls hlserr
    rcases hsecerr with ⟨e2, he2⟩
    exact collectE_error_of_mem hsec he2
  · intro hall
    apply collectE_ok_of_all
    intro sec hsec
    rw [tbxTermSecRows_eq]
    apply collectOptE_ok_of_all
    intro ls hls
    exact tbxLangsetRow_ok j _ _ ls
      (fun tig htig => hall sec hsec ls hls tig htig)

/-- Witness for C7_amended: the failure part at `exNoTermDoc`, the success
part at `exTwoTigDoc`. -/
theorem C7_witness :
    (∃ e, tbxConverter (some "J") exNoTermDoc = .error e) ∧
    (∃ rows, tbxConverter (some "J") exTwoTigDoc = .ok rows) := by
  constructor
  · exact (C7_amended (some "J") exNoTermDoc).1
      ⟨exNoTermSec, List.mem_singleton_self _,
       exNoTermLs, List.mem_cons_self _ _,
       exNoTermTig, rfl, rfl⟩
  · refine (C7_amended (some "J") exTwoTigDoc).2 ?_
    intro sec hsec ls hls tig htig
    rcases List.mem_singleton.mp hsec with rfl
    rcases List.mem_singleton.mp hls with rfl
    have h2 : some exTwoTigTig1 = some tig := htig
    injection h2 with h2
    subst h2
    rfl

/-- C8: every Row of each of the seven extractors carries exactly the
declared field list of the extractor (in order, no missing or extra keys,
absent data being the explicit `Cell.nil`), and the `id` field equals the
job identifier of the Document. -/
theorem C8_rowSchema : ∀ (k : ExtractorKind) (d : Document)
    (rows : List Row), extract k d = .ok rows → ∀ r ∈ rows,
      r.map Prod.fst = fieldnames k ∧
      r.lookup "id" = some (cellOfOpt d.jobId) := by
  intro k d rows h r hr
  cases k with
  | classification =>
    injection h with h
    subst h
    rw [icsConverter_eq] at hr
    rcases List.mem_flatMap.mp hr with ⟨c, hc, hrc⟩
    cases hf : d.tree.findTag c with
    | none => rw [hf] at hrc; simp at hrc
    | some meta =>
      rw [hf] at hrc
      simp only [] at hrc
      rcases List.mem_map.mp hrc with ⟨i, _, hri⟩
      rw [← hri]
      exact ⟨rfl, rfl⟩
  | committeeReference =>
    injection h with h
    subst h
    rw [commRefConverter_eq] at hr
    rcases List.mem_flatMap.mp hr with ⟨c, hc, hrc⟩
    cases hf : d.tree.findTag c with
    | none => rw [hf] at hrc; simp at hrc
    | some meta =>
      rw [hf] at hrc
      simp only [] at hrc
      unfold commRefMeta at hrc
      cases hg : meta.findTag "comm-ref-group" with
      | some g0 =>
        simp only [hg] at hrc
        rcases parseGroups_mem d.jobId meta.size meta (Nat.le_refl _) 1 r hrc
          with ⟨g, leaf, k2, _, _, _, hrow, _⟩
        subst hrow
        exact ⟨rfl, rfl⟩
      | none =>
        simp only [hg] at hrc
        rcases List.mem_map.mp hrc with ⟨i, _, hri⟩
        rw [← hri]
        exact ⟨rfl, rfl⟩
  | terminology =>
    rcases collectE_mem
      (show collectE (tbxTermSecRows d.jobId) (d.tree.findAllTag "term-sec")
        = .ok rows from h) r hr with ⟨sec, _, bs, hbs, hrbs⟩
    rw [tbxTermSecRows_eq] at hbs
    rcases collectOptE_mem hbs r hrbs with ⟨ls, _, hls⟩
    exact tbxLangsetRow_shape _ _ _ ls r hls
  | referenceList =>
    injection h with h
    subst h
    rcases (refListConverter_rows d.jobId d.tree).1 r hr
      with ⟨ct, st, si, srt, sr, hrow, _⟩
    subst hrow
    exact ⟨rfl, rfl⟩
  | standardMetadata => exact stdRefConverter_shape _ _ _ h r hr
  | dateExtraction => exact dateConverter_shape _ _ _ h r hr
  | title =>
    rcases forall₂_mem_right
      (mapE_forall₂ (show mapE (titleRow d.jobId)
        (d.tree.findAllTag "title-wrap") = .ok rows from h)) r hr
      with ⟨i, _, hfi⟩
    rcases titleRow_shape d.jobId i r hfi with ⟨h1, h2, _⟩
    exact ⟨h1, h2⟩

/-- Witness for C8_rowSchema: the Classification extractor over
`exIcsTwoContainersDoc`. -/
theorem C8_witness :
    (([("id", Cell.s "J"), ("ics", Cell.s "11.040")] : Row).map Prod.fst
      = fieldnames ExtractorKind.classification) ∧
    ([("id", Cell.s "J"), ("ics", Cell.s "11.040")] : Row).lookup "id"
      = some (cellOfOpt (some "J")) :=
  C8_rowSchema ExtractorKind.classification
    ⟨exIcsTwoContainersDoc, some "J"⟩
    [[("id", Cell.s "J"), ("ics", Cell.s "11.040")],
     [("id", Cell.s "J"), ("ics", Cell.s "23.020")]] rfl
    [("id", Cell.s "J"), ("ics", Cell.s "11.040")]
    (List.mem_cons_self _ _)

/-- C9: each of the seven extractors is a pure function of the parsed tree
and the job identifier: one run leaves the processor state (its only
converter-visible attribute is `job_id`) unchanged, so an immediate second
run over the unmodified Document returns the identical Row result. -/
theorem C9_idempotent (k : ExtractorKind) (s : ProcState) (tree : Node) :
    (runExtractor k (runExtractor k s tree).1 tree).2
      = (runExtractor k s tree).2 ∧
    (runExtractor k s tree).1 = s := ⟨rfl, rfl⟩

/-- C10: provenance of CommitteeReference rows.  Every emitted row comes
from a probed container, and either that container has a grouping
element and the committee text of the row is the text of a `comm-ref` that is a
DIRECT child of some `comm-ref-group` (with a numeric level ≥ 1 — never an
absent level), or the container has no grouping element at all.  In
particular a `comm-ref` lying outside every grouping element of a
grouped container never produces a row. -/
theorem C10_groupedOnly : ∀ (j : Option String) (soup : Node) (r : Row),
    r ∈ commRefConverter j soup →
    ∃ cname ∈ commRefContainers, ∃ meta,
      soup.findTag cname = some meta ∧
      ((∃ g leaf k, g ∈ meta.descendants ∧
          g.nameIs "comm-ref-group" = true ∧
          leaf ∈ g.childrenTag "comm-ref" ∧
          r = commRefRow j (Cell.n k) leaf.getText ∧ 1 ≤ k) ∨
       (meta.findTag "comm-ref-group" = none ∧
        ∃ leaf ∈ meta.findAllTag "comm-ref",
          r = commRefRow j Cell.nil leaf.getText)) := by
  intro j soup r hr
  rw [commRefConverter_eq] at hr
  rcases List.mem_flatMap.mp hr with ⟨c, hc, hrc⟩
  cases hf : soup.findTag c with
  | none => rw [hf] at hrc; simp at hrc
  | some meta =>
    rw [hf] at hrc
    simp only [] at hrc
    refine ⟨c, hc, meta, hf, ?_⟩
    unfold commRefMeta at hrc
    cases hg : meta.findTag "comm-ref-group" with
    | some g0 =>
      simp only [hg] at hrc
      rcases parseGroups_mem j meta.size meta (Nat.le_refl _) 1 r hrc
        with ⟨g, leaf, k, h1, h2, h3, h4, h5⟩
      exact Or.inl ⟨g, leaf, k, h1, h2, h3, h4, h5⟩
    | none =>
      simp only [hg] at hrc
      rcases List.mem_map.mp hrc with ⟨leaf, hleaf, hrow⟩
      exact Or.inr ⟨rfl, leaf, hleaf, hrow.symm⟩

/-- Witness for C10_groupedOnly: the deepest row of the three-level
document. -/
theorem C10_witness :
    ∃ cname ∈ commRefContainers, ∃ meta,
      exCommDoc.findTag cname = some meta ∧
      ((∃ g leaf k, g ∈ meta.descendants ∧
          g.nameIs "comm-ref-group" = true ∧
          leaf ∈ g.childrenTag "comm-ref" ∧
          commRefRow (some "J") (Cell.n 3) "WG"
            = commRefRow (some "J") (Cell.n k) leaf.getText ∧ 1 ≤ k) ∨
       (meta.findTag "comm-ref-group" = none ∧
        ∃ leaf ∈ meta.findAllTag "comm-ref",
          commRefRow (some "J") (Cell.n 3) "WG"
            = commRefRow (some "J") Cell.nil leaf.getText)) :=
  C10_groupedOnly (some "J") exCommDoc
    (commRefRow (some "J") (Cell.n 3) "WG")
    (by rw [exCommDoc_eval]; exact List.mem_cons_self _ _)
